import Mathlib

/-
Verification development for the NutriWallet price-normalization and
basket-optimization core.

The Python source is shallowly embedded:
  * `Decimal` values are modelled as exact rationals (`ℚ`).  The default
    28-digit context of Python's `decimal` module and the non-finite
    specials (`NaN`, `Infinity`) are not modelled; all inputs of interest
    are small finite decimals.
  * `float` parameters (budget, solver values) are likewise modelled as
    exact rationals.
  * Strings are handled through their character lists.  Python's Unicode
    case mapping is approximated by ASCII case mapping extended with the
    German letters that occur in the unit tables; Python's `\s` and `\d`
    classes are modelled by their ASCII members (plus the common Latin-1
    spaces), which covers every string the services are specified on.
-/

/- Batteries marks the rational operations irreducible, which blocks
kernel evaluation of concrete instances; restore the default status so
that witnesses can be checked by `decide`. -/
attribute [local semireducible] Rat.mul Rat.add Rat.inv Rat.sub

namespace NutriWallet

/-! ### Character helpers -/

/-- Whitespace characters removed by Python's `str.strip` / regex `\s`
(ASCII whitespace plus the Latin-1 NEL and NBSP). -/
def pySpace (c : Char) : Bool :=
  c ∈ [' ', '\t', '\n', '\r', '\x0b', '\x0c',
       Char.ofNat 28, Char.ofNat 29, Char.ofNat 30, Char.ofNat 31,
       Char.ofNat 133, Char.ofNat 160]

/-- ASCII decimal digit, the `\d` class of the unit regex. -/
def isDigitC (c : Char) : Bool := '0' ≤ c && c ≤ '9'

/-- Python `str.lower`, restricted to ASCII plus the German capitals used
by the unit vocabulary. -/
def pyLowerChar (c : Char) : Char :=
  if 'A' ≤ c && c ≤ 'Z' then Char.ofNat (c.toNat + 32)
  else if c = 'Ä' then 'ä'
  else if c = 'Ö' then 'ö'
  else if c = 'Ü' then 'ü'
  else c

/-- Python `str.upper`, restricted to ASCII plus the German umlauts. -/
def pyUpperChar (c : Char) : Char :=
  if 'a' ≤ c && c ≤ 'z' then Char.ofNat (c.toNat - 32)
  else if c = 'ä' then 'Ä'
  else if c = 'ö' then 'Ö'
  else if c = 'ü' then 'Ü'
  else c

def lowerList (l : List Char) : List Char := l.map pyLowerChar

def lowerString (s : String) : String := ⟨lowerList s.data⟩

def upperString (s : String) : String := ⟨s.data.map pyUpperChar⟩

/-- Python `str.strip()` on a character list. -/
def stripList (l : List Char) : List Char :=
  ((l.dropWhile pySpace).reverse.dropWhile pySpace).reverse

/-- `pat` occurs as a contiguous substring of `l` (Python's `in`). -/
def isInfixList (pat l : List Char) : Bool :=
  l.tails.any (fun t => pat.isPrefixOf t)

/-- Split a character list at every occurrence of `sep`
(Python `str.split(sep)`). -/
def splitOnChar (sep : Char) : List Char → List (List Char)
  | [] => [[]]
  | c :: rest =>
    match splitOnChar sep rest with
    | [] => if c = sep then [[], []] else [[c]]
    | h :: t => if c = sep then [] :: h :: t else (c :: h) :: t

/-! ### Decimal literal parsing

Model of the finite-number fragment of Python's `Decimal(str)`
constructor: optional sign, digits with an optional fractional part, and
an optional exponent; underscores are removed first, as the `decimal`
documentation specifies. -/

def natOfDigits (l : List Char) : ℕ :=
  l.foldl (fun n c => 10 * n + (c.toNat - 48)) 0

/-- Parse an optional exponent suffix; returns `none` when malformed. -/
def parseExpPart : List Char → Option ℤ
  | [] => some 0
  | c :: rest =>
    if c = 'e' || c = 'E' then
      match rest with
      | '+' :: ds => if ds ≠ [] && ds.all isDigitC then some (natOfDigits ds : ℤ) else none
      | '-' :: ds => if ds ≠ [] && ds.all isDigitC then some (-(natOfDigits ds : ℤ)) else none
      | ds => if ds ≠ [] && ds.all isDigitC then some (natOfDigits ds : ℤ) else none
    else none

/-- Finite-decimal fragment of `Decimal(str)` over an unsigned body. -/
def pyDecimalBody (l : List Char) : Option ℚ :=
  let intPart := l.takeWhile isDigitC
  let rest := l.dropWhile isDigitC
  match rest with
  | '.' :: rest2 =>
    let fracPart := rest2.takeWhile isDigitC
    let rest3 := rest2.dropWhile isDigitC
    if intPart = [] && fracPart = [] then none
    else
      match parseExpPart rest3 with
      | some e =>
        some (((natOfDigits (intPart ++ fracPart) : ℚ) / (10 : ℚ) ^ fracPart.length) * (10 : ℚ) ^ e)
      | none => none
  | _ =>
    if intPart = [] then none
    else
      match parseExpPart rest with
      | some e => some ((natOfDigits intPart : ℚ) * (10 : ℚ) ^ e)
      | none => none

/-- `Decimal(str)` on a character list (finite values only). -/
def pyDecimal (l : List Char) : Option ℚ :=
  let l := l.filter (fun c => c ≠ '_')
  match l with
  | '+' :: rest => pyDecimalBody rest
  | '-' :: rest => (pyDecimalBody rest).map (fun q => -q)
  | rest => pyDecimalBody rest

/-! ### Half-even rounding

`Decimal.quantize` with the default `ROUND_HALF_EVEN` context rounding,
and Python's built-in `round`. -/

/-- Round to the nearest integer, ties to even. -/
def rdHE (x : ℚ) : ℤ :=
  let n : ℤ := ⌊x⌋
  let r : ℚ := x - (n : ℚ)
  if r < 1 / 2 then n
  else if 1 / 2 < r then n + 1
  else if n % 2 = 0 then n else n + 1

/-- Round to 2 decimal places, ties to even (`quantize(Decimal("0.01"))`,
`round(x, 2)`). -/
def round2 (x : ℚ) : ℚ := (rdHE (100 * x) : ℚ) / 100

/-- Round to 1 decimal place, ties to even (`round(x, 1)`). -/
def round1 (x : ℚ) : ℚ := (rdHE (10 * x) : ℚ) / 10

/-- Round to 0 decimal places, ties to even (`round(x, 0)`). -/
def round0 (x : ℚ) : ℚ := (rdHE x : ℚ)

/-! ### PriceService.parse_price -/

/-- Characters removed by `re.sub(r'[€$£₹\s]', '', ...)`. -/
def priceStripChar (c : Char) : Bool :=
  c ∈ ['€', '$', '£', '₹'] || pySpace c

def stripPriceChars (l : List Char) : List Char :=
  l.filter (fun c => !priceStripChar c)

/-- Comma-to-dot substitution (`str.replace(',', '.')`). -/
def commaToDot (c : Char) : Char := if c = ',' then '.' else c

/-- The code's decimal-separator test for a string containing only the
separator `sep`: the string splits at `sep` into exactly two fragments
and the fragment after the separator has length at most 2. -/
def sepDecCond (sep : Char) (l : List Char) : Bool :=
  match splitOnChar sep l with
  | [_, b] => b.length ≤ 2
  | _ => false

/-- `PriceService.parse_price`. -/
def parse_price (s : String) : Option ℚ :=
  if s = "" then none
  else
    let cleaned := stripPriceChars s.data
    let c2 :=
      if ',' ∈ cleaned ∧ '.' ∈ cleaned then
        (cleaned.filter (fun c => c ≠ '.')).map commaToDot
      else if ',' ∈ cleaned then
        if sepDecCond ',' cleaned then cleaned.map commaToDot
        else cleaned.filter (fun c => c ≠ ',')
      else if '.' ∈ cleaned then
        if sepDecCond '.' cleaned then cleaned
        else cleaned.filter (fun c => c ≠ '.')
      else cleaned
    pyDecimal c2

/-! ### PriceService.parse_unit -/

/-- `PriceService.UNIT_CONVERSIONS` (exact-match table). -/
def UNIT_CONVERSIONS : List (String × ℚ) :=
  [("kg", 1), ("g", 1 / 1000), ("mg", 1 / 1000000), ("100g", 1 / 10), ("500g", 1 / 2),
   ("l", 1), ("L", 1), ("ml", 1 / 1000), ("mL", 1 / 1000),
   ("cl", 1 / 100), ("cL", 1 / 100),
   ("piece", 1), ("stück", 1), ("pack", 1), ("packung", 1)]

/-- Exact-match lookup `unit_lower in cls.UNIT_CONVERSIONS`. -/
def lookupUnit (l : List Char) : Option ℚ :=
  (UNIT_CONVERSIONS.find? (fun kv => kv.1.data = l)).map (fun kv => kv.2)

/-- The regex `^(\d+)(g|kg|ml|l|cl)$`: leading digit count and base
symbol, or `none` when the token does not match. -/
def matchNumUnit (l : List Char) : Option (ℕ × String) :=
  let ds := l.takeWhile isDigitC
  let rest := l.dropWhile isDigitC
  if ds = [] then none
  else if rest = ['g'] then some (natOfDigits ds, "g")
  else if rest = ['k', 'g'] then some (natOfDigits ds, "kg")
  else if rest = ['m', 'l'] then some (natOfDigits ds, "ml")
  else if rest = ['l'] then some (natOfDigits ds, "l")
  else if rest = ['c', 'l'] then some (natOfDigits ds, "cl")
  else none

/-- Base conversion factor (`UNIT_CONVERSIONS[base_unit]`) for the five
regex base symbols. -/
def baseFactor (b : String) : ℚ :=
  if b = "g" then 1 / 1000
  else if b = "kg" then 1
  else if b = "ml" then 1 / 1000
  else if b = "l" then 1
  else if b = "cl" then 1 / 100
  else 0

/-- Strip a literal word prefix and re-strip whitespace
(the `"pro "` / `"per "` handling). -/
def dropPrefixWord (w l : List Char) : List Char :=
  if w.isPrefixOf l then stripList (l.drop w.length) else l

/-- The preprocessing pipeline of `parse_unit`: strip, lowercase, drop
the `"pro "` then `"per "` prefixes. -/
def preprocessUnit (l : List Char) : List Char :=
  dropPrefixWord "per ".data (dropPrefixWord "pro ".data (lowerList (stripList l)))

/-- The matching pipeline of `parse_unit`: exact table lookup first,
then the numeric-prefix regex, defaulting to `("piece", 1)`. -/
def parse_unit_core (ul : List Char) : String × ℚ :=
  match lookupUnit ul with
  | some f => (⟨ul⟩, f)
  | none =>
    match matchNumUnit ul with
    | some (n, b) => (b, (n : ℚ) * baseFactor b)
    | none => ("piece", 1)

/-- `PriceService.parse_unit`. -/
def parse_unit (u : String) : String × ℚ :=
  if u = "" then ("piece", 1)
  else parse_unit_core (preprocessUnit u.data)

/-- The count-family canonical units. -/
def countUnits : List String := ["piece", "stück", "pack", "packung"]

/-- `PriceService.calculate_price_per_unit`.  `Decimal` division is
modelled exactly; the `quantize` step is half-even rounding to cents. -/
def calculate_price_per_unit (price : ℚ) (unit : String) : Option ℚ :=
  let nu := (parse_unit unit).1
  let f := (parse_unit unit).2
  if nu ∈ countUnits then none
  else if f = 0 then none
  else some (round2 (price / f))

/-- `PriceService.normalize_price_data`.  The guard `if price` is Python
truthiness: both `None` and the zero decimal skip the per-unit
computation. -/
def normalize_price_data (price_str unit_str : String) :
    Option ℚ × Option ℚ × String :=
  let price := parse_price price_str
  let nu := (parse_unit unit_str).1
  let ppu :=
    match price with
    | some p => if p = 0 then none else calculate_price_per_unit p unit_str
    | none => none
  (price, ppu, nu)

/-! ### Optimizer data model (`app/api/schemas.py`)

Fields that cannot influence `optimize` (URL, timestamps, confidence,
freshness flag) are omitted from the embedding. -/

structure PriceResult where
  product_name : String
  normalized_name : String
  price : ℚ
  currency : String
  unit : String
  price_per_unit : Option ℚ
  store : String
  city : String
deriving DecidableEq

structure OptimizedIngredient where
  product_name : String
  quantity : ℚ
  unit : String
  total_cost : ℚ
  store : String
  protein : ℚ
  carbs : ℚ
  fat : ℚ
  calories : ℚ
deriving DecidableEq

structure OptimizerResult where
  status : String
  ingredients : List OptimizedIngredient
  total_cost : ℚ
  total_protein : ℚ
  total_calories : ℚ
  budget_utilization : ℚ
deriving DecidableEq

/-- The all-zero result emitted by every short circuit. -/
def zeroResult (s : String) : OptimizerResult :=
  ⟨s, [], 0, 0, 0, 0⟩

/-! ### Nutrition lookup (`DEFAULT_NUTRITION`, `_get_nutrition`) -/

structure Nutrition where
  protein : ℚ
  carbs : ℚ
  fat : ℚ
  calories : ℚ
deriving DecidableEq

/-- The per-100g fallback nutrition table of `optimizer.py`. -/
def DEFAULT_NUTRITION : List (String × Nutrition) :=
  [("chicken breast", ⟨31, 0, 36/10, 165⟩),
   ("eggs", ⟨13, 11/10, 11, 155⟩),
   ("greek yogurt", ⟨10, 36/10, 4/10, 59⟩),
   ("cottage cheese", ⟨11, 34/10, 43/10, 98⟩),
   ("tofu", ⟨8, 19/10, 48/10, 76⟩),
   ("lentils", ⟨9, 20, 4/10, 116⟩),
   ("chickpeas", ⟨89/10, 27, 26/10, 164⟩),
   ("tuna", ⟨30, 0, 1, 144⟩),
   ("ground beef", ⟨26, 0, 15, 250⟩),
   ("milk", ⟨34/10, 5, 33/10, 61⟩),
   ("rice", ⟨27/10, 28, 3/10, 130⟩),
   ("oats", ⟨17, 66, 7, 389⟩),
   ("bread", ⟨9, 49, 32/10, 265⟩),
   ("pasta", ⟨5, 25, 11/10, 131⟩),
   ("potatoes", ⟨2, 17, 1/10, 77⟩),
   ("bananas", ⟨11/10, 23, 3/10, 89⟩),
   ("broccoli", ⟨28/10, 7, 4/10, 34⟩),
   ("spinach", ⟨29/10, 36/10, 4/10, 23⟩),
   ("carrots", ⟨9/10, 10, 2/10, 41⟩),
   ("onions", ⟨11/10, 9, 1/10, 40⟩),
   ("tomatoes", ⟨9/10, 39/10, 2/10, 18⟩),
   ("olive oil", ⟨0, 0, 100, 884⟩),
   ("peanut butter", ⟨25, 20, 50, 588⟩),
   ("butter", ⟨9/10, 1/10, 81, 717⟩)]

/-- `OptimizerAgent._get_nutrition`: case-insensitive exact lookup with
the generic fallback profile. -/
def getNutrition (name : String) : Nutrition :=
  ((DEFAULT_NUTRITION.find? (fun kv => kv.1 = lowerString name)).map (fun kv => kv.2)).getD
    ⟨10, 20, 5, 150⟩

/-- `OptimizerAgent._unit_to_grams`. -/
def unitToGrams (unit : String) : ℚ :=
  let ul := lowerList unit.data
  if ul = "kg".data then 1000
  else if ul = "g".data then 1
  else if ul = "l".data then 1000
  else if ul = "ml".data then 1
  else if isInfixList "100g".data ul then 100
  else 50

/-! ### Optimizer (`OptimizerAgent.optimize`)

The PuLP model is embedded as explicit constraint data; the CBC solve is
an oracle parameter mapping the built model either to `none` (any
non-`Optimal` status) or to the solver's variable assignment. -/

/-- A decision-variable key: `(normalized_name, store)`. -/
abbrev PKey := String × String

def keyOf (p : PriceResult) : PKey := (p.normalized_name, p.store)

/-- Per-base-unit cost used by the model:
`float(price.price_per_unit) if price.price_per_unit else float(price.price)`
(Python truthiness: `None` and the zero decimal both fall back to
`price`). -/
def ppuOf (p : PriceResult) : ℚ :=
  match p.price_per_unit with
  | some x => if x = 0 then p.price else x
  | none => p.price

/-- Deduplicated `(key, first quote)` association in input order, the
`variables` / `product_info` dictionaries. -/
def buildInfoAux (seen : List PKey) : List PriceResult → List (PKey × PriceResult)
  | [] => []
  | p :: rest =>
    if keyOf p ∈ seen then buildInfoAux seen rest
    else (keyOf p, p) :: buildInfoAux (keyOf p :: seen) rest

def buildInfo (l : List PriceResult) : List (PKey × PriceResult) :=
  buildInfoAux [] l

/-- Append a key to the group of `name`, creating the group at the end
on first sight (`protein_products` dict building). -/
def insertGroup (acc : List (String × List PKey)) (name : String) (k : PKey) :
    List (String × List PKey) :=
  if acc.any (fun g => g.1 = name) then
    acc.map (fun g => if g.1 = name then (g.1, g.2 ++ [k]) else g)
  else acc ++ [(name, [k])]

/-- `protein_products`: high-protein (strictly above 15 g/100g) keys
grouped by normalized product name in first-appearance order. -/
def hpGroupsAux (acc : List (String × List PKey)) :
    List (PKey × PriceResult) → List (String × List PKey)
  | [] => acc
  | kp :: rest =>
    if 15 < (getNutrition kp.2.normalized_name).protein then
      hpGroupsAux (insertGroup acc kp.2.normalized_name kp.1) rest
    else hpGroupsAux acc rest

def hpGroups (infos : List (PKey × PriceResult)) : List (String × List PKey) :=
  hpGroupsAux [] infos

/-- The flattened `protein_vars` list. -/
def hpKeys (infos : List (PKey × PriceResult)) : List PKey :=
  ((hpGroups infos).map (fun g => g.2)).flatten

/-- Category constraints: for each `(category, maxQty)` pair, the keys
whose normalized name contains the category (case-insensitive), when any
exist. -/
def categoryCons (infos : List (PKey × PriceResult)) (cm : List (String × ℚ)) :
    List (List PKey × ℚ) :=
  cm.filterMap (fun c =>
    let items := infos.filter
      (fun kp => isInfixList (lowerList c.1.data) (lowerList kp.2.normalized_name.data))
    if items = [] then none else some (items.map (fun kp => kp.1), c.2))

/-- The linear program handed to the solver, as data. -/
structure LPModel where
  infos : List (PKey × PriceResult)
  budgetLimit : ℚ
  maxPerItem : ℚ
  catCons : List (List PKey × ℚ)
  varietyCons : Option (List PKey × ℚ)
  calCons : Option (ℚ × ℚ)

/-- Calorie coefficient of one variable:
`calories * var / 100 * grams_per_unit`. -/
def calCoeff (p : PriceResult) : ℚ :=
  (getNutrition p.normalized_name).calories / 100 * unitToGrams p.unit

/-- Build the LP exactly as `optimize` does after the short circuits. -/
def buildLP (l : List PriceResult) (budget : ℚ) (minv : ℤ) (maxu : ℚ)
    (cm : List (String × ℚ)) (cb : Option (ℚ × ℚ)) : LPModel :=
  let infos := buildInfo l
  let gs := hpGroups infos
  { infos := infos
    budgetLimit := budget * (102 / 100)
    maxPerItem := maxu
    catCons := categoryCons infos cm
    varietyCons :=
      if gs ≠ [] ∧ minv ≤ (gs.length : ℤ) then
        some ((gs.map (fun g => g.2)).flatten, (minv : ℚ) / 10)
      else none
    calCons := cb.map (fun b => (b.1 * 7, b.2 * 7)) }

/-- Weekly calorie total of an assignment. -/
def calTotal (m : LPModel) (a : PKey → ℚ) : ℚ :=
  (m.infos.map (fun kp => calCoeff kp.2 * a kp.1)).sum

/-- The constraint set of the LP, as a Boolean check on an assignment:
variable bounds, budget, per-item cap, category caps, the protein-variety
floor, and the calorie window. -/
def feasibleB (m : LPModel) (a : PKey → ℚ) : Bool :=
  (m.infos.all (fun kp => decide (0 ≤ a kp.1) && decide (a kp.1 ≤ m.maxPerItem))) &&
  decide ((m.infos.map (fun kp => ppuOf kp.2 * a kp.1)).sum ≤ m.budgetLimit) &&
  (m.catCons.all (fun c => decide (((c.1.map a).sum ≤ c.2)))) &&
  (match m.varietyCons with
   | none => true
   | some vc => decide (vc.2 ≤ (vc.1.map a).sum)) &&
  (match m.calCons with
   | none => true
   | some b => decide (b.1 ≤ calTotal m a) && decide (calTotal m a ≤ b.2))

/-- An assignment satisfies every constraint of the built LP. -/
@[reducible] def feasible (m : LPModel) (a : PKey → ℚ) : Prop := feasibleB m a = true

/-- One emitted ingredient for a kept variable. -/
def mkIng (kp : PKey × PriceResult) (q : ℚ) : OptimizedIngredient :=
  let p := kp.2
  let qg := unitToGrams p.unit * q
  { product_name := p.product_name
    quantity := round2 q
    unit := p.unit
    total_cost := ppuOf p * q
    store := p.store
    protein := round1 ((getNutrition p.normalized_name).protein * qg / 100)
    carbs := round1 ((getNutrition p.normalized_name).carbs * qg / 100)
    fat := round1 ((getNutrition p.normalized_name).fat * qg / 100)
    calories := round0 ((getNutrition p.normalized_name).calories * qg / 100) }

/-- Solution extraction for an `Optimal` solve: keep variables above the
0.001 noise floor, cost each one, and aggregate the totals. -/
def extractResult (m : LPModel) (a : PKey → ℚ) (budget : ℚ) : OptimizerResult :=
  let kept := m.infos.filterMap
    (fun kp => if 1 / 1000 < a kp.1 then some (mkIng kp (a kp.1)) else none)
  let tc := (kept.map (fun i => i.total_cost)).sum
  let tp := (m.infos.map (fun kp =>
    if 1 / 1000 < a kp.1 then
      (getNutrition kp.2.normalized_name).protein * (unitToGrams kp.2.unit * a kp.1) / 100
    else 0)).sum
  let tcal := (m.infos.map (fun kp =>
    if 1 / 1000 < a kp.1 then
      (getNutrition kp.2.normalized_name).calories * (unitToGrams kp.2.unit * a kp.1) / 100
    else 0)).sum
  { status := "optimal"
    ingredients := kept
    total_cost := tc
    total_protein := round1 tp
    total_calories := round0 tcal
    budget_utilization := round1 (if 0 < budget then tc / budget * 100 else 0) }

/-- The currency filter `p.currency.upper() == currency.upper()`. -/
def currencyFilter (l : List PriceResult) (currency : String) : List PriceResult :=
  l.filter (fun p => upperString p.currency = upperString currency)

/-- `min(...)` over a nonempty list of prices (0 only for the unreachable
empty case). -/
def minPrice : List ℚ → ℚ
  | [] => 0
  | x :: xs => xs.foldl min x

/-- `OptimizerAgent.optimize`.  The `oracle` parameter stands for the
`prob.solve()` call: `none` models any non-`Optimal` solver status. -/
def optimize (oracle : LPModel → Option (PKey → ℚ)) (prices : List PriceResult)
    (budget : ℚ) (currency : String) (minv : ℤ) (maxu : ℚ)
    (cm : List (String × ℚ)) (cb : Option (ℚ × ℚ)) : OptimizerResult :=
  if prices = [] then zeroResult "infeasible"
  else if currencyFilter prices currency = [] then zeroResult "infeasible"
  else if budget < minPrice ((currencyFilter prices currency).map (fun p => p.price)) then
    zeroResult "budget_too_low"
  else
    match oracle (buildLP (currencyFilter prices currency) budget minv maxu cm cb) with
    | none => zeroResult "infeasible"
    | some a => extractResult (buildLP (currencyFilter prices currency) budget minv maxu cm cb) a budget

/-! ## Theorems about the price service -/

/-- C3: For every price string containing a comma but no dot, `parse_price`
treats the comma as a decimal separator exactly when the cleaned string
splits at the comma into two fragments with the second of length at most
2 (`sepDecCond`), and as a thousands separator otherwise; when both comma
and dot are present the dots are removed and the comma becomes the
decimal point.  Concretely, `parse_price "8,99" = parse_price "8.99" =
8.99`, `parse_price "1.234,56" = 1234.56`, and
`parse_price "1,234" = 1234`. -/
theorem parse_price_comma_disambiguation :
    (∀ s : String, ',' ∈ stripPriceChars s.data → '.' ∉ stripPriceChars s.data →
      parse_price s = pyDecimal
        (if sepDecCond ',' (stripPriceChars s.data) then
          (stripPriceChars s.data).map commaToDot
         else (stripPriceChars s.data).filter (fun c => c ≠ ','))) ∧
    (∀ s : String, ',' ∈ stripPriceChars s.data → '.' ∈ stripPriceChars s.data →
      parse_price s =
        pyDecimal (((stripPriceChars s.data).filter (fun c => c ≠ '.')).map commaToDot)) ∧
    parse_price "8,99" = some (899 / 100) ∧
    parse_price "8.99" = some (899 / 100) ∧
    parse_price "1.234,56" = some (123456 / 100) ∧
    parse_price "1,234" = some 1234 := by
  refine ⟨?_, ?_, by decide, by decide, by decide, by decide⟩
  · intro s h1 h2
    have hs : s ≠ "" := by
      intro he
      subst he
      simp [stripPriceChars] at h1
    unfold parse_price
    rw [if_neg hs]
    dsimp only
    rw [if_neg (show ¬(',' ∈ stripPriceChars s.data ∧ '.' ∈ stripPriceChars s.data) from
      fun hc => h2 hc.2)]
    rw [if_pos h1]
  · intro s h1 h2
    have hs : s ≠ "" := by
      intro he
      subst he
      simp [stripPriceChars] at h1
    unfold parse_price
    rw [if_neg hs]
    dsimp only
    rw [if_pos (show ',' ∈ stripPriceChars s.data ∧ '.' ∈ stripPriceChars s.data from ⟨h1, h2⟩)]

/-- Witness for C3: the first conjunct applied at the concrete input
`"12,345"`, whose after-comma fragment has length 3, so the comma is a
thousands separator. -/
theorem parse_price_comma_disambiguation_witness :
    parse_price "12,345" = pyDecimal
      (if sepDecCond ',' (stripPriceChars "12,345".data) then
        (stripPriceChars "12,345".data).map commaToDot
       else (stripPriceChars "12,345".data).filter (fun c => c ≠ ',')) :=
  parse_price_comma_disambiguation.1 "12,345" (by decide) (by decide)

/-- C4: Whenever the canonical unit of `unit` is outside the count
family and the conversion factor is non-zero, `calculate_price_per_unit`
returns the price divided by the factor, rounded (half-even) to 2 decimal
places; concretely `8.99` at `"500g"` gives `17.98` and `2.50` at
`"500ml"` gives `5.00`. -/
theorem calculate_price_per_unit_division :
    (∀ (price : ℚ) (unit : String),
      (parse_unit unit).1 ∉ countUnits → (parse_unit unit).2 ≠ 0 →
      calculate_price_per_unit price unit = some (round2 (price / (parse_unit unit).2))) ∧
    calculate_price_per_unit (899 / 100) "500g" = some (1798 / 100) ∧
    calculate_price_per_unit (5 / 2) "500ml" = some 5 := by
  refine ⟨?_, by decide, by decide⟩
  intro price unit h1 h2
  unfold calculate_price_per_unit
  rw [if_neg h1, if_neg h2]

/-- Witness for C4: the general conjunct applied at price `8.99` and unit
`"500g"` (canonical unit `"500g"`, factor `1/2`). -/
theorem calculate_price_per_unit_division_witness :
    calculate_price_per_unit (899 / 100) "500g" =
      some (round2 ((899 / 100) / (parse_unit "500g").2)) :=
  calculate_price_per_unit_division.1 (899 / 100) "500g" (by decide) (by decide)

/-- C5: `calculate_price_per_unit` returns `none` for every price
whenever the canonical unit is in the count family or the conversion
factor is zero. -/
theorem calculate_price_per_unit_count_none :
    ∀ (price : ℚ) (unit : String),
      ((parse_unit unit).1 ∈ countUnits ∨ (parse_unit unit).2 = 0) →
      calculate_price_per_unit price unit = none := by
  intro price unit h
  unfold calculate_price_per_unit
  rcases h with h | h
  · rw [if_pos h]
  · by_cases hm : (parse_unit unit).1 ∈ countUnits
    · rw [if_pos hm]
    · rw [if_neg hm, if_pos h]

/-- Witness for C5: applied at price `7` and the count unit `"piece"`,
and at the zero-factor unit `"0g"`. -/
theorem calculate_price_per_unit_count_none_witness :
    calculate_price_per_unit 7 "piece" = none ∧
    calculate_price_per_unit 7 "0g" = none :=
  ⟨calculate_price_per_unit_count_none 7 "piece" (Or.inl (by decide)),
   calculate_price_per_unit_count_none 7 "0g" (Or.inr (by decide))⟩

/-- C10: when the price string parses to the exact decimal zero,
`normalize_price_data` reports an absent price-per-unit for every unit
string, because the zero price is falsy in the guard `if price`. -/
theorem normalize_price_data_zero_price :
    ∀ (price_str unit_str : String), parse_price price_str = some 0 →
      (normalize_price_data price_str unit_str).2.1 = none := by
  intro ps us h
  unfold normalize_price_data
  rw [h]
  simp

/-- Witness for C10: the zero price string `"0,00"` with the weight unit
`"kg"`. -/
theorem normalize_price_data_zero_price_witness :
    (normalize_price_data "0,00" "kg").2.1 = none :=
  normalize_price_data_zero_price "0,00" "kg" (by decide)

/-! ### Helper lemmas for the numeric-prefix unit tokens -/

lemma mem_takeWhile_pred {p : Char → Bool} {l : List Char} {c : Char}
    (h : c ∈ l.takeWhile p) : p c = true := by
  induction l with
  | nil => simp at h
  | cons a t ih =>
    rw [List.takeWhile_cons] at h
    by_cases hpa : p a
    · rw [if_pos hpa] at h
      rcases List.mem_cons.mp h with rfl | h2
      · exact hpa
      · exact ih h2
    · rw [if_neg hpa] at h
      simp at h

lemma dropWhile_eq_self_of {p : Char → Bool} {l : List Char}
    (h : ∀ c ∈ l, p c = false) : l.dropWhile p = l := by
  cases l with
  | nil => rfl
  | cons a t =>
    rw [List.dropWhile_cons, if_neg (by simp [h a (List.mem_cons_self a t)])]

lemma stripList_eq_self {l : List Char} (h : ∀ c ∈ l, pySpace c = false) :
    stripList l = l := by
  unfold stripList
  rw [dropWhile_eq_self_of h,
    dropWhile_eq_self_of (fun c hc => h c (List.mem_reverse.mp hc)),
    List.reverse_reverse]

lemma map_eq_self {f : Char → Char} {l : List Char} (h : ∀ c ∈ l, f c = c) :
    l.map f = l := by
  induction l with
  | nil => rfl
  | cons a t ih =>
    simp [h a (List.mem_cons_self a t),
      ih (fun c hc => h c (List.mem_cons_of_mem a hc))]

lemma not_space_of_digit {c : Char} (h : isDigitC c = true) : pySpace c = false := by
  simp only [isDigitC, Bool.and_eq_true, decide_eq_true_eq] at h
  simp only [pySpace, List.mem_cons, List.not_mem_nil, or_false, decide_eq_false_iff_not]
  rintro (rfl | rfl | rfl | rfl | rfl | rfl | rfl | rfl | rfl | rfl | rfl | rfl) <;>
    first
      | exact absurd h.1 (by decide)
      | exact absurd h.2 (by decide)

lemma lower_fix_digit {c : Char} (h : isDigitC c = true) : pyLowerChar c = c := by
  simp only [isDigitC, Bool.and_eq_true, decide_eq_true_eq] at h
  have hA : ¬('A' ≤ c) := fun hc => absurd (le_trans hc h.2) (by decide)
  have h1 : c ≠ 'Ä' := fun he => absurd h.2 (by rw [he]; decide)
  have h2 : c ≠ 'Ö' := fun he => absurd h.2 (by rw [he]; decide)
  have h3 : c ≠ 'Ü' := fun he => absurd h.2 (by rw [he]; decide)
  simp [pyLowerChar, hA, h1, h2, h3]

lemma string_data_injective {s t : String} (h : s.data = t.data) : s = t := by
  cases s
  cases t
  exact congrArg String.mk h

lemma matchNumUnit_facts {l : List Char} {n : ℕ} {b : String}
    (h : matchNumUnit l = some (n, b)) :
    l.takeWhile isDigitC ≠ [] ∧ l.dropWhile isDigitC = b.data ∧
      b ∈ (["g", "kg", "ml", "l", "cl"] : List String) := by
  unfold matchNumUnit at h
  by_cases hds : l.takeWhile isDigitC = []
  · rw [if_pos hds] at h
    simp at h
  · rw [if_neg hds] at h
    split_ifs at h with h1 h2 h3 h4 h5 <;> simp only [Option.some.injEq, Prod.mk.injEq] at h
    · exact ⟨hds, by rw [h1, ← h.2], by rw [← h.2]; decide⟩
    · exact ⟨hds, by rw [h2, ← h.2], by rw [← h.2]; decide⟩
    · exact ⟨hds, by rw [h3, ← h.2], by rw [← h.2]; decide⟩
    · exact ⟨hds, by rw [h4, ← h.2], by rw [← h.2]; decide⟩
    · exact ⟨hds, by rw [h5, ← h.2], by rw [← h.2]; decide⟩

lemma matchNumUnit_head {l : List Char} {n : ℕ} {b : String}
    (h : matchNumUnit l = some (n, b)) :
    ∃ d t, l = d :: t ∧ isDigitC d = true := by
  obtain ⟨hds, -, -⟩ := matchNumUnit_facts h
  cases hl : l with
  | nil => subst hl; simp at hds
  | cons d t =>
    subst hl
    by_cases hd : isDigitC d
    · exact ⟨d, t, rfl, hd⟩
    · exfalso
      apply hds
      simp [List.takeWhile_cons, hd]

lemma matchNumUnit_chars {l : List Char} {n : ℕ} {b : String}
    (h : matchNumUnit l = some (n, b)) :
    ∀ c ∈ l, isDigitC c = true ∨ c ∈ (['g', 'k', 'm', 'l', 'c'] : List Char) := by
  obtain ⟨-, hrest, hb⟩ := matchNumUnit_facts h
  intro c hc
  rw [← List.takeWhile_append_dropWhile (p := isDigitC) (l := l)] at hc
  rcases List.mem_append.mp hc with h1 | h1
  · exact Or.inl (mem_takeWhile_pred h1)
  · right
    rw [hrest] at h1
    fin_cases hb <;> simp_all <;> rcases h1 with rfl | rfl <;> decide

lemma isPrefixOf_false_of_head {w0 d : Char} {wr t : List Char}
    (h : w0 ≠ d) : (w0 :: wr).isPrefixOf (d :: t) = false := by
  simp [List.isPrefixOf, h]

lemma dropPrefixWord_of_no (w l : List Char) (h : w.isPrefixOf l = false) :
    dropPrefixWord w l = l := by
  unfold dropPrefixWord
  simp [h]

lemma lookupUnit_none {d : Char} {t : List Char} (hd : isDigitC d = true)
    (h100 : d :: t ≠ "100g".data) (h500 : d :: t ≠ "500g".data) :
    lookupUnit (d :: t) = none := by
  have hni : ∀ kv ∈ UNIT_CONVERSIONS, ¬(kv.1.data = d :: t) := by
    intro kv hkv
    fin_cases hkv <;> intro he
    all_goals
      first
        | exact h100 he.symm
        | exact h500 he.symm
        | (injection he with he1 he2; rw [← he1] at hd; exact absurd hd (by decide))
  unfold lookupUnit
  rw [List.find?_eq_none.mpr (fun kv hkv => by simpa using hni kv hkv)]
  rfl

lemma preprocessUnit_fix {l : List Char}
    (hgood : ∀ c ∈ l, isDigitC c = true ∨ c ∈ (['g', 'k', 'm', 'l', 'c'] : List Char))
    {d : Char} {t : List Char} (hl : l = d :: t) (hd : isDigitC d = true) :
    preprocessUnit l = l := by
  have hspace : ∀ c ∈ l, pySpace c = false := by
    intro c hc
    rcases hgood c hc with h | h
    · exact not_space_of_digit h
    · fin_cases h <;> decide
  have hlower : ∀ c ∈ l, pyLowerChar c = c := by
    intro c hc
    rcases hgood c hc with h | h
    · exact lower_fix_digit h
    · fin_cases h <;> decide
  have hdp : ∀ w0 : Char, w0 ≠ d → ∀ wr : List Char,
      dropPrefixWord (w0 :: wr) l = l := by
    intro w0 hw wr
    apply dropPrefixWord_of_no
    rw [hl]
    exact isPrefixOf_false_of_head hw
  have hp : ('p' : Char) ≠ d := by
    intro he
    rw [← he] at hd
    exact absurd hd (by decide)
  unfold preprocessUnit
  rw [stripList_eq_self hspace, show lowerList l = l from map_eq_self hlower,
    hdp 'p' hp _, hdp 'p' hp _]

/-! ## Theorems about `parse_unit` on numeric-prefix tokens -/

/-- C6 counterexample: the claim asserts that every token matching
`^(\d+)(g|kg|ml|l|cl)$` is mapped to the base symbol, but `"500g"` is an
exact-match key of the conversion table, which is consulted first, so
`parse_unit "500g"` keeps `"500g"` itself as the canonical unit. -/
theorem parse_unit_500g_counterexample :
    parse_unit "500g" = ("500g", 1 / 2) ∧ parse_unit "500g" ≠ ("g", 1 / 2) := by
  decide

/-- C6 (amended): for every token matching `^(\d+)(g|kg|ml|l|cl)$` other
than the exact-match table keys `"100g"` and `"500g"`, `parse_unit`
returns the base symbol as canonical unit and count × base factor as the
conversion factor; on `"100g"` and `"500g"` the exact-match table wins
and the token itself is returned (with the same factor value). -/
theorem parse_unit_numeric_prefix :
    (∀ (s : String) (n : ℕ) (b : String), matchNumUnit s.data = some (n, b) →
      s ≠ "100g" → s ≠ "500g" →
      parse_unit s = (b, (n : ℚ) * baseFactor b)) ∧
    parse_unit "100g" = ("100g", 1 / 10) ∧ parse_unit "500g" = ("500g", 1 / 2) := by
  refine ⟨?_, by decide, by decide⟩
  intro s n b hm h100 h500
  obtain ⟨d, t, hl, hd⟩ := matchNumUnit_head hm
  have hne : s ≠ "" := by
    intro he
    subst he
    rw [show ("" : String).data = [] from rfl] at hl
    exact List.noConfusion hl
  have hpre : preprocessUnit s.data = s.data :=
    preprocessUnit_fix (matchNumUnit_chars hm) hl hd
  have h100d : s.data ≠ "100g".data := fun he => h100 (string_data_injective he)
  have h500d : s.data ≠ "500g".data := fun he => h500 (string_data_injective he)
  have hlook : lookupUnit s.data = none := by
    rw [hl]
    exact lookupUnit_none hd (hl ▸ h100d) (hl ▸ h500d)
  unfold parse_unit
  rw [if_neg hne, hpre]
  simp only [parse_unit_core, hlook, hm]

/-- Witness for C6 (amended): the token `"250g"` resolves to the base
symbol `"g"` with factor `250 × 0.001`. -/
theorem parse_unit_numeric_prefix_witness :
    parse_unit "250g" = ("g", (250 : ℚ) * baseFactor "g") :=
  parse_unit_numeric_prefix.1 "250g" 250 "g" (by decide) (by decide) (by decide)

/-! ## Helper lemmas for the optimizer -/

lemma mem_of_mem_buildInfoAux :
    ∀ {seen : List PKey} {l : List PriceResult} {kp : PKey × PriceResult},
      kp ∈ buildInfoAux seen l → kp.2 ∈ l := by
  intro seen l
  induction l generalizing seen with
  | nil => intro kp h; simp [buildInfoAux] at h
  | cons p rest ih =>
    intro kp h
    rw [buildInfoAux] at h
    by_cases hs : keyOf p ∈ seen
    · rw [if_pos hs] at h
      exact List.mem_cons_of_mem p (ih h)
    · rw [if_neg hs] at h
      rcases List.mem_cons.mp h with rfl | h2
      · exact List.mem_cons_self p rest
      · exact List.mem_cons_of_mem p (ih h2)

lemma ppuOf_nonneg {p : PriceResult} (h1 : 0 ≤ p.price)
    (h2 : 0 ≤ p.price_per_unit.getD 0) : 0 ≤ ppuOf p := by
  unfold ppuOf
  cases hp : p.price_per_unit with
  | none => exact h1
  | some x =>
    rw [hp] at h2
    show 0 ≤ if x = 0 then p.price else x
    by_cases hx : x = 0
    · rw [if_pos hx]; exact h1
    · rw [if_neg hx]
      exact h2

/-- The cost of the kept (above-noise-floor) variables is bounded by the
full budget-constraint sum when every term is nonnegative. -/
lemma kept_cost_le_full (a : PKey → ℚ) :
    ∀ l : List (PKey × PriceResult), (∀ kp ∈ l, 0 ≤ ppuOf kp.2 * a kp.1) →
    ((l.filterMap (fun kp =>
        if 1 / 1000 < a kp.1 then some (mkIng kp (a kp.1)) else none)).map
      (fun i => i.total_cost)).sum
    ≤ (l.map (fun kp => ppuOf kp.2 * a kp.1)).sum := by
  intro l
  induction l with
  | nil => simp
  | cons kp t ih =>
    intro h
    have ht := ih (fun x hx => h x (List.mem_cons_of_mem kp hx))
    have hh := h kp (List.mem_cons_self kp t)
    rw [List.filterMap_cons, List.map_cons, List.sum_cons]
    by_cases hq : 1 / 1000 < a kp.1
    · rw [if_pos hq]
      rw [List.map_cons, List.sum_cons]
      have : (mkIng kp (a kp.1)).total_cost = ppuOf kp.2 * a kp.1 := rfl
      rw [this]
      exact add_le_add_left ht _
    · rw [if_neg hq]
      calc ((t.filterMap (fun kp =>
              if 1 / 1000 < a kp.1 then some (mkIng kp (a kp.1)) else none)).map
            (fun i => i.total_cost)).sum
          ≤ (t.map (fun kp => ppuOf kp.2 * a kp.1)).sum := ht
        _ ≤ ppuOf kp.2 * a kp.1 + (t.map (fun kp => ppuOf kp.2 * a kp.1)).sum := by
            linarith

/-- Components of a feasible assignment. -/
lemma feasible_parts {m : LPModel} {a : PKey → ℚ} (h : feasible m a) :
    (∀ kp ∈ m.infos, 0 ≤ a kp.1 ∧ a kp.1 ≤ m.maxPerItem) ∧
    (m.infos.map (fun kp => ppuOf kp.2 * a kp.1)).sum ≤ m.budgetLimit := by
  unfold feasible feasibleB at h
  rw [Bool.and_eq_true, Bool.and_eq_true, Bool.and_eq_true, Bool.and_eq_true] at h
  obtain ⟨⟨⟨⟨hA, hB⟩, -⟩, -⟩, -⟩ := h
  rw [List.all_eq_true] at hA
  refine ⟨fun kp hkp => ?_, of_decide_eq_true hB⟩
  have huv := hA kp hkp
  rw [Bool.and_eq_true] at huv
  exact ⟨of_decide_eq_true huv.1, of_decide_eq_true huv.2⟩

/-! ## Concrete fixtures used by the witnesses -/

/-- A EUR chicken-breast quote (8.99 per kg), as in the repository's
optimizer tests. -/
def chickenQ : PriceResult :=
  ⟨"Chicken Breast", "chicken breast", 899 / 100, "EUR", "kg", some (899 / 100),
   "spar", "vienna"⟩

/-- A EUR rice quote (2.50 per kg). -/
def riceQ : PriceResult :=
  ⟨"Rice", "rice", 5 / 2, "EUR", "kg", some (5 / 2), "spar", "vienna"⟩

/-- A USD quote, used to exercise currency isolation. -/
def usdQ : PriceResult :=
  ⟨"Tuna", "tuna", 3, "USD", "kg", some 3, "walmart", "nyc"⟩

/-- A solver stub that always returns the all-ones assignment. -/
def oracleOne : LPModel → Option (PKey → ℚ) := fun _ => some (fun _ => 1)

/-- A solver stub that always reports a non-optimal status. -/
def oracleNone : LPModel → Option (PKey → ℚ) := fun _ => none

/-- Shared helper: the empty-input short circuit of `optimize`. -/
lemma optimize_of_empty (oracle : LPModel → Option (PKey → ℚ))
    (prices : List PriceResult) (budget : ℚ) (currency : String) (minv : ℤ)
    (maxu : ℚ) (cm : List (String × ℚ)) (cb : Option (ℚ × ℚ))
    (h : prices = []) :
    optimize oracle prices budget currency minv maxu cm cb = zeroResult "infeasible" := by
  unfold optimize
  rw [if_pos h]

/-- Shared helper: the no-matching-currency short circuit of `optimize`. -/
lemma optimize_of_no_match (oracle : LPModel → Option (PKey → ℚ))
    (prices : List PriceResult) (budget : ℚ) (currency : String) (minv : ℤ)
    (maxu : ℚ) (cm : List (String × ℚ)) (cb : Option (ℚ × ℚ))
    (h1 : prices ≠ []) (h2 : currencyFilter prices currency = []) :
    optimize oracle prices budget currency minv maxu cm cb = zeroResult "infeasible" := by
  unfold optimize
  rw [if_neg h1, if_pos h2]

/-- Shared helper: the low-budget short circuit of `optimize`. -/
lemma optimize_of_low_budget (oracle : LPModel → Option (PKey → ℚ))
    (prices : List PriceResult) (budget : ℚ) (currency : String) (minv : ℤ)
    (maxu : ℚ) (cm : List (String × ℚ)) (cb : Option (ℚ × ℚ))
    (h1 : currencyFilter prices currency ≠ [])
    (h2 : budget < minPrice ((currencyFilter prices currency).map (fun p => p.price))) :
    optimize oracle prices budget currency minv maxu cm cb = zeroResult "budget_too_low" := by
  have hp : prices ≠ [] := by
    intro he
    apply h1
    rw [he]
    rfl
  unfold optimize
  rw [if_neg hp, if_neg h1, if_pos h2]

/-! ## Theorems about the optimizer -/

/-- C2: `optimize` checks its short-circuit preconditions in order before
consulting the solver (the result is the same for every oracle): an empty
quote list yields `infeasible` with the all-zero result; a non-empty list
with no currency-matching quote yields `infeasible`; otherwise, when the
cheapest matching price exceeds the budget, it yields `budget_too_low` —
in each case with an empty ingredient list and zero totals
(`zeroResult`). -/
theorem optimize_short_circuits (oracle : LPModel → Option (PKey → ℚ))
    (prices : List PriceResult) (budget : ℚ) (currency : String) (minv : ℤ)
    (maxu : ℚ) (cm : List (String × ℚ)) (cb : Option (ℚ × ℚ)) :
    (prices = [] →
      optimize oracle prices budget currency minv maxu cm cb = zeroResult "infeasible") ∧
    (prices ≠ [] → currencyFilter prices currency = [] →
      optimize oracle prices budget currency minv maxu cm cb = zeroResult "infeasible") ∧
    (currencyFilter prices currency ≠ [] →
      budget < minPrice ((currencyFilter prices currency).map (fun p => p.price)) →
      optimize oracle prices budget currency minv maxu cm cb = zeroResult "budget_too_low") :=
  ⟨optimize_of_empty oracle prices budget currency minv maxu cm cb,
   optimize_of_no_match oracle prices budget currency minv maxu cm cb,
   optimize_of_low_budget oracle prices budget currency minv maxu cm cb⟩

/-- Witness for C2: with budget 0.01 against the 8.99 chicken quote, the
third short circuit fires (for the trivial oracle). -/
theorem optimize_short_circuits_witness :
    optimize oracleNone [chickenQ] (1 / 100) "EUR" 3 2 [] none =
      zeroResult "budget_too_low" :=
  (optimize_short_circuits oracleNone [chickenQ] (1 / 100) "EUR" 3 2 [] none).2.2
    (by decide) (by decide)

/-- C8: quotes whose currency differs (case-insensitively) from the
requested currency never influence the result: appending any list of
non-matching quotes leaves the result of `optimize` unchanged, for every
oracle. -/
theorem optimize_currency_isolation (oracle : LPModel → Option (PKey → ℚ))
    (prices extra : List PriceResult) (budget : ℚ) (currency : String) (minv : ℤ)
    (maxu : ℚ) (cm : List (String × ℚ)) (cb : Option (ℚ × ℚ))
    (h : ∀ q ∈ extra, upperString q.currency ≠ upperString currency) :
    optimize oracle (prices ++ extra) budget currency minv maxu cm cb =
      optimize oracle prices budget currency minv maxu cm cb := by
  have hextra : currencyFilter extra currency = [] := by
    unfold currencyFilter
    rw [List.filter_eq_nil_iff]
    intro q hq
    simpa using h q hq
  have hfl : currencyFilter (prices ++ extra) currency = currencyFilter prices currency := by
    unfold currencyFilter at hextra ⊢
    rw [List.filter_append, hextra, List.append_nil]
  by_cases hp : prices = []
  · subst hp
    rw [List.nil_append]
    by_cases he : extra = []
    · rw [he]
    · unfold optimize
      rw [if_neg he, if_pos hextra, if_pos rfl]
  · have hpe : prices ++ extra ≠ [] := by
      intro hc
      exact hp (List.append_eq_nil.mp hc).1
    unfold optimize
    rw [if_neg hpe, if_neg hp, hfl]

/-- Witness for C8: appending a USD quote to a EUR quote list does not
change the result when optimizing in EUR. -/
theorem optimize_currency_isolation_witness :
    optimize oracleNone ([chickenQ] ++ [usdQ]) 50 "EUR" 3 2 [] none =
      optimize oracleNone [chickenQ] 50 "EUR" 3 2 [] none :=
  optimize_currency_isolation oracleNone [chickenQ] [usdQ] 50 "EUR" 3 2 [] none
    (by decide)

/-- C1: whenever `optimize` reports status `"optimal"`, the reported
total cost (the sum over emitted ingredients of price-per-base-unit ×
quantity) does not exceed budget × 1.02 — exactly, in the rational
model — provided the quotes carry nonnegative prices and the oracle only
returns assignments satisfying the built constraint set, as an LP solver
does. -/
theorem optimize_budget_bound (oracle : LPModel → Option (PKey → ℚ))
    (prices : List PriceResult) (budget : ℚ) (currency : String) (minv : ℤ)
    (maxu : ℚ) (cm : List (String × ℚ)) (cb : Option (ℚ × ℚ))
    (hpos : ∀ p ∈ prices, 0 ≤ p.price ∧ 0 ≤ p.price_per_unit.getD 0)
    (hsol : ∀ a, oracle (buildLP (currencyFilter prices currency) budget minv maxu cm cb) = some a →
      feasible (buildLP (currencyFilter prices currency) budget minv maxu cm cb) a)
    (hopt : (optimize oracle prices budget currency minv maxu cm cb).status = "optimal") :
    (optimize oracle prices budget currency minv maxu cm cb).total_cost ≤
      budget * (102 / 100) := by
  by_cases h1 : prices = []
  · rw [optimize_of_empty oracle prices budget currency minv maxu cm cb h1] at hopt
    exact absurd hopt (by decide)
  by_cases h2 : currencyFilter prices currency = []
  · rw [optimize_of_no_match oracle prices budget currency minv maxu cm cb h1 h2] at hopt
    exact absurd hopt (by decide)
  by_cases h3 : budget < minPrice ((currencyFilter prices currency).map (fun p => p.price))
  · rw [optimize_of_low_budget oracle prices budget currency minv maxu cm cb h2 h3] at hopt
    exact absurd hopt (by decide)
  unfold optimize at hopt ⊢
  rw [if_neg h1, if_neg h2, if_neg h3] at hopt ⊢
  cases ho : oracle (buildLP (currencyFilter prices currency) budget minv maxu cm cb) with
  | none =>
    rw [ho] at hopt
    dsimp only at hopt
    exact absurd hopt (by decide)
  | some a =>
    rw [ho] at hopt
    dsimp only
    obtain ⟨hbnd, hbudget⟩ :=
      feasible_parts (hsol a ho)
    have hterm : ∀ kp ∈ (buildLP (currencyFilter prices currency) budget minv maxu cm cb).infos,
        0 ≤ ppuOf kp.2 * a kp.1 := by
      intro kp hkp
      have hmem : kp.2 ∈ prices := by
        have h4 : kp.2 ∈ currencyFilter prices currency := mem_of_mem_buildInfoAux hkp
        unfold currencyFilter at h4
        exact (List.mem_filter.mp h4).1
      exact mul_nonneg (ppuOf_nonneg (hpos kp.2 hmem).1 (hpos kp.2 hmem).2) (hbnd kp hkp).1
    have hle := kept_cost_le_full a
      (buildLP (currencyFilter prices currency) budget minv maxu cm cb).infos hterm
    calc (extractResult (buildLP (currencyFilter prices currency) budget minv maxu cm cb) a
            budget).total_cost
        ≤ ((buildLP (currencyFilter prices currency) budget minv maxu cm cb).infos.map
            (fun kp => ppuOf kp.2 * a kp.1)).sum := hle
      _ ≤ (buildLP (currencyFilter prices currency) budget minv maxu cm cb).budgetLimit := hbudget
      _ = budget * (102 / 100) := rfl

/-- Witness for C1: the all-ones assignment is feasible for the
one-chicken-quote model at budget 50, the status is `"optimal"`, and the
bound holds. -/
theorem optimize_budget_bound_witness :
    (optimize oracleOne [chickenQ] 50 "EUR" 3 2 [] none).status = "optimal" ∧
    (optimize oracleOne [chickenQ] 50 "EUR" 3 2 [] none).total_cost ≤ 50 * (102 / 100) :=
  ⟨by decide,
   optimize_budget_bound oracleOne [chickenQ] 50 "EUR" 3 2 [] none
     (by decide)
     (fun a ha => (Option.some.inj ha) ▸
       (by decide : feasible (buildLP (currencyFilter [chickenQ] "EUR") 50 3 2 [] none)
         (fun _ => 1)))
     (by decide)⟩

/-- C9 counterexample: with `minProteinVariety = 0` and a quote list
containing no high-protein product, the count of distinct high-protein
products (0) is at least `minProteinVariety`, yet no protein-variety
constraint is added — refuting the claimed "exactly when". -/
theorem variety_constraint_counterexample :
    (buildLP (currencyFilter [riceQ] "EUR") 50 0 2 [] none).varietyCons = none ∧
    (0 : ℤ) ≤ ((hpGroups (buildInfo (currencyFilter [riceQ] "EUR"))).length : ℤ) := by
  decide

/-- C9 (amended): the protein-variety constraint is added exactly when
there is at least one high-protein product (per-100g protein strictly
above 15) and the number of distinct such products is at least
`minProteinVariety`; when added it is exactly the floor
`Σ quantity ≥ 0.1 × minProteinVariety` over all high-protein variables,
and that floor never forces distinct products: it can be met by an
assignment supported on a single variable. -/
theorem variety_constraint_shape (l : List PriceResult) (budget : ℚ) (minv : ℤ)
    (maxu : ℚ) (cm : List (String × ℚ)) (cb : Option (ℚ × ℚ)) :
    ((buildLP l budget minv maxu cm cb).varietyCons ≠ none ↔
      (hpGroups (buildInfo l) ≠ [] ∧ minv ≤ ((hpGroups (buildInfo l)).length : ℤ))) ∧
    (∀ vc, (buildLP l budget minv maxu cm cb).varietyCons = some vc →
      vc = (hpKeys (buildInfo l), (minv : ℚ) / 10)) ∧
    (∀ vc k₀, (buildLP l budget minv maxu cm cb).varietyCons = some vc → k₀ ∈ vc.1 →
      ∃ a : PKey → ℚ, vc.2 ≤ (vc.1.map a).sum ∧
        ∀ k k', a k ≠ 0 → a k' ≠ 0 → k = k') := by
  refine ⟨?_, ?_, ?_⟩
  · unfold buildLP
    dsimp only
    by_cases hc : hpGroups (buildInfo l) ≠ [] ∧ minv ≤ ((hpGroups (buildInfo l)).length : ℤ)
    · rw [if_pos hc]
      simp [hc]
    · rw [if_neg hc]
      simp [hc]
  · intro vc h
    unfold buildLP at h
    dsimp only at h
    split_ifs at h with hc
    exact (Option.some.inj h).symm
  · intro vc k₀ _ hk
    refine ⟨fun k => if k = k₀ then max vc.2 0 else 0, ?_, ?_⟩
    · have hmem : max vc.2 0 ∈ vc.1.map (fun k => if k = k₀ then max vc.2 0 else 0) := by
        have := List.mem_map_of_mem (fun k => if k = k₀ then max vc.2 0 else 0) hk
        simpa using this
      have hnn : ∀ x ∈ vc.1.map (fun k => if k = k₀ then max vc.2 0 else 0), 0 ≤ x := by
        intro x hx
        rcases List.mem_map.mp hx with ⟨k, -, rfl⟩
        by_cases hkk : k = k₀
        · rw [if_pos hkk]; exact le_max_right _ _
        · rw [if_neg hkk]
      calc vc.2 ≤ max vc.2 0 := le_max_left _ _
        _ ≤ (vc.1.map (fun k => if k = k₀ then max vc.2 0 else 0)).sum :=
            List.single_le_sum hnn _ hmem
    · intro k k' h1 h2
      by_cases hkk : k = k₀
      · by_cases hkk' : k' = k₀
        · rw [hkk, hkk']
        · exact absurd (if_neg hkk') h2
      · exact absurd (if_neg hkk) h1

/-- Witness for C9 (amended): with one high-protein chicken quote and
`minProteinVariety = 1`, the constraint is the 0.1-floor over the
chicken key, and the floor is satisfiable with a single non-zero
variable. -/
theorem variety_constraint_shape_witness :
    (([(("chicken breast", "spar") : PKey)], (1 : ℚ) / 10) =
      (hpKeys (buildInfo (currencyFilter [chickenQ] "EUR")), (1 : ℚ) / 10)) ∧
    ∃ a : PKey → ℚ,
      ((1 : ℚ) / 10 ≤ (([(("chicken breast", "spar") : PKey)]).map a).sum) ∧
      ∀ k k', a k ≠ 0 → a k' ≠ 0 → k = k' :=
  ⟨(variety_constraint_shape (currencyFilter [chickenQ] "EUR") 50 1 2 [] none).2.1
     ([(("chicken breast", "spar") : PKey)], (1 : ℚ) / 10) (by decide),
   (variety_constraint_shape (currencyFilter [chickenQ] "EUR") 50 1 2 [] none).2.2
     (([(("chicken breast", "spar") : PKey)]), (1 : ℚ) / 10)
     (("chicken breast", "spar") : PKey) (by decide) (by decide)⟩

end NutriWallet
